import Mathlib

/-!
Verification development for the batch-assembly pipeline of
`pytools/fcrepo_to_bulkrax.py` (fcrepo_migration_tools).

The Python source is shallowly embedded below.  Conventions:

* A Python object's dynamic attribute dictionary (`__dict__`) is modelled as an
  insertion-ordered association list; `setattr` replaces the value in place
  when the key exists (Python dicts keep the original key position) and appends
  otherwise.
* Attribute values are strings or lists of strings (`PyVal`), the only value
  shapes the script produces.
* `datetime` values are ISO-8601 strings compared lexicographically, which for
  the uniform timestamp format used by the store agrees with chronological
  order; the wall clock read by `datetime.now()` is passed in explicitly as
  the `now` field of the graph configuration.
* File-system copying (`shutil.copy2` together with `get_file_path`) is
  modelled by an oracle `copy : FileSet -> Option String`: `some p` is a
  successful copy returning path `p`, `none` is a raised exception.
* The generator `prepare_import_batches` is modelled as a fuelled function
  returning `RunResult`: `.ok batches` for a normal complete run,
  `.assertFail` when the source would raise (the `AssertionError` for an empty
  `bulkrax_identifier`, or an `AttributeError`/`TypeError` from
  `resource.model`), and `.diverge` when the Python loop would not terminate
  (possible only when `batch_size = 0`, where `while len(rows) < 0` never
  runs and `done` is never set).
* `ThreadPoolExecutor`/`as_completed` nondeterminism is not modelled: the
  sub-groups of `copy_files_concurrently` are aggregated in submission order.
  Rows are unaffected by this; only the order of the returned path list could
  differ in a real run.
* Logging, `mkdir`, progress counting (`import_counter`'s tallies) and CSV/zip
  serialization are I/O-only and omitted; the attribute accesses that
  `import_counter[resource.model]` performs are kept, because they can raise.
-/

inductive PyVal where
  | s (v : String)
  | l (vs : List String)
deriving DecidableEq, Repr

/-- First-match lookup in an insertion-ordered attribute dictionary. -/
def lookupKey {α : Type} : List (String × α) → String → Option α
  | [], _ => none
  | (k', v) :: rest, k => if k' == k then some v else lookupKey rest k

/-- `setattr` / dict update: replace in place if the key exists (keeping the
original key and position, as Python dicts do), else append. -/
def setKey {α : Type} : List (String × α) → String → α → List (String × α)
  | [], k, v => [(k, v)]
  | (k', v') :: rest, k, v =>
    if k' == k then (k', v) :: rest else (k', v') :: setKey rest k v

abbrev Attrs := List (String × PyVal)

/-- A triple row as returned by the SPARQL resource queries: predicate,
object value and the adminSet binding. -/
structure Triple where
  p : String
  o : String
  adminSet : Option String := none
deriving DecidableEq, Repr

/-- `predicate -> (bulkrax_field, multiple)`, `FedoraGraph.load_mapping`'s
result shape. -/
abbrev Mapping := List (String × String × Bool)

def lookupMapping (m : Mapping) (p : String) : Option (String × Bool) :=
  lookupKey m p

/-- A `Resource` (class `Resource`, subclasses `Work` and `Collection`):
`id` and `admin_set` are set by `make_resource`; every other attribute —
mapped fields, and later `visibility`, the embargo fields and `parents` —
lives in the dynamic attribute dictionary `attrs`. -/
structure Resource where
  id : String
  admin_set : Option String := none
  attrs : Attrs := []
deriving DecidableEq, Repr

/-- One step of the `make_resource` loop body for a triple whose predicate is
in the mapping: append to the list for a multiple field, assign for a
single-valued field.  (A multiple-field append onto a previously assigned
single value would raise in Python and is not modelled.) -/
def addTriple (m : Mapping) (attrs : Attrs) (t : Triple) : Attrs :=
  match lookupMapping m t.p with
  | none => attrs
  | some (f, true) =>
    match lookupKey attrs f with
    | some (.l xs) => setKey attrs f (.l (xs ++ [t.o]))
    | _ => setKey attrs f (.l [t.o])
  | some (f, false) => setKey attrs f (.s t.o)

/-- `Resource.make_resource`.  The `admin_set` is read off the loop variable
after the loop, i.e. from the last triple of the group (`groupby` never
yields an empty group, so the Python `NameError` on an empty iterator is
unreachable and not modelled). -/
def Resource.make_resource (id : String) (triples : List Triple) (m : Mapping) :
    Resource :=
  { id := id
    admin_set := (triples.getLast?).bind (fun t => t.adminSet)
    attrs := triples.foldl (addTriple m) [] }

/-- `FileSet` dataclass.  The declared fields are fixed by the SPARQL
attachment query; `extra` models attributes later added by `setattr`
(`visibility` and the embargo fields), whose values are always strings. -/
structure FileSet where
  parents : String
  id : String
  file : String
  title : String
  file_uri : String
  model : String := "FileSet"
  extra : List (String × String) := []
deriving DecidableEq, Repr

/-- Python `str.split(sep)` for a one-character separator (the only separator
shapes the source uses are `"/"` and `"#"`), working on the character list. -/
def splitChar (sep : Char) : List Char → List (List Char)
  | [] => [[]]
  | c :: rest =>
    if c == sep then [] :: splitChar sep rest
    else
      match splitChar sep rest with
      | g :: gs => (c :: g) :: gs
      | [] => [[c]]

/-- Python `s.split(sep)` for a one-character separator. -/
def pySplit (s : String) (sep : Char) : List String :=
  (splitChar sep s.data).map String.mk

/-- `uri_to_id` on a single string: `uri.split("/")[-1]`, the trailing path
component. -/
def uri_to_id (uri : String) : String := (pySplit uri '/').getLastD ""

/-- `uri_to_id` on either value shape (it maps itself over lists). -/
def uriToIdVal : PyVal → PyVal
  | .s v => .s (uri_to_id v)
  | .l vs => .l (vs.map uri_to_id)

/-- `uri_to_id(group_uri).split("#")[-1]` from
`PermissionsMapping.update_resource`. -/
def groupToId (g : String) : String := (pySplit (uri_to_id g) '#').getLastD ""

/-- The permission loop of `PermissionsMapping.update_resource`: starting from
`"private"`, the `"public"` group forces `"open"` and stops, the
`"registered"` group sets `"restricted"` and keeps scanning, any other group
leaves the accumulator unchanged. -/
def permVisibility : List String → String → String
  | [], acc => acc
  | g :: gs, acc =>
    if groupToId g = "public" then "open"
    else if groupToId g = "registered" then permVisibility gs "restricted"
    else permVisibility gs acc

/-- `permissions_per_resource`: resource id -> group uris. -/
abbrev PermissionsMapping := List (String × List String)

/-- `PermissionsMapping.update_resource` for a `Resource`. -/
def PermissionsMapping.update_resource (pm : PermissionsMapping) (r : Resource) :
    Resource :=
  match lookupKey pm r.id with
  | none => r
  | some groups =>
    if groups.isEmpty then r
    else { r with attrs := setKey r.attrs "visibility" (.s (permVisibility groups "private")) }

/-- `PermissionsMapping.update_resource` applied to a `FileSet` (duck typing
in the source; `setattr` lands in the dynamic attributes). -/
def PermissionsMapping.update_fileset (pm : PermissionsMapping) (fs : FileSet) :
    FileSet :=
  match lookupKey pm fs.id with
  | none => fs
  | some groups =>
    if groups.isEmpty then fs
    else { fs with extra := setKey fs.extra "visibility" (permVisibility groups "private") }

/-- One embargo record of `embargo_per_resource` (the dict also stores the
constant `"visibility": "embargo"` entry; it is reproduced in the update
functions below). -/
structure EmbargoRec where
  visibility_during_embargo : String
  visibility_after_embargo : String
  release_date : String
deriving DecidableEq, Repr

abbrev EmbargoMapping := List (String × EmbargoRec)

/-- `is_active_embargo`: `datetime.fromisoformat(release_date) >= datetime.now()`.
ISO-8601 timestamps in the store's uniform format compare lexicographically
like their instants, so the datetime comparison is modelled by string
comparison against the injected wall-clock string `now`. -/
def charListLt : List Char → List Char → Bool
  | [], [] => false
  | [], _ :: _ => true
  | _ :: _, [] => false
  | a :: as, b :: bs =>
    if a < b then true
    else if b < a then false
    else charListLt as bs

/-- Lexicographic string comparison (equals `String.lt`, defined structurally). -/
def strLt (a b : String) : Bool := charListLt a.data b.data

def is_active_embargo (now : String) (er : EmbargoRec) : Bool :=
  !(strLt er.release_date now)

/-- `EmbargoMapping.update_resource` for a `Resource`: on an active embargo
overlay all four record entries (in the record's insertion order, `visibility`
last, set to `"embargo"`); on an expired embargo set only `visibility` to the
configured post-release value. -/
def EmbargoMapping.update_resource (em : EmbargoMapping) (now : String)
    (r : Resource) : Resource :=
  match lookupKey em r.id with
  | none => r
  | some er =>
    if is_active_embargo now er then
      let attrs :=
        setKey (setKey (setKey (setKey r.attrs
          "visibility_during_embargo" (.s er.visibility_during_embargo))
          "visibility_after_embargo" (.s er.visibility_after_embargo))
          "release_date" (.s er.release_date))
          "visibility" (.s "embargo")
      { r with attrs := attrs }
    else { r with attrs := setKey r.attrs "visibility" (.s er.visibility_after_embargo) }

/-- `EmbargoMapping.update_resource` applied to a `FileSet`. -/
def EmbargoMapping.update_fileset (em : EmbargoMapping) (now : String)
    (fs : FileSet) : FileSet :=
  match lookupKey em fs.id with
  | none => fs
  | some er =>
    if is_active_embargo now er then
      let extra :=
        setKey (setKey (setKey (setKey fs.extra
          "visibility_during_embargo" er.visibility_during_embargo)
          "visibility_after_embargo" er.visibility_after_embargo)
          "release_date" er.release_date)
          "visibility" "embargo"
      { fs with extra := extra }
    else { fs with extra := setKey fs.extra "visibility" er.visibility_after_embargo }

/-- `parent_child_mapping`: child resource id -> parent ids. -/
abbrev ParentChildMapping := List (String × List String)

/-- `ParentChildMapping.update_resource`: when a non-empty entry exists the
source executes `resource.parents = parents` — a plain assignment that
REPLACES any existing `parents` attribute. -/
def ParentChildMapping.update_resource (pc : ParentChildMapping) (r : Resource) :
    Resource :=
  match lookupKey pc r.id with
  | none => r
  | some ps =>
    if ps.isEmpty then r
    else { r with attrs := setKey r.attrs "parents" (.l ps) }

/-- `FedoraGraph.format_for_bulkrax`. -/
def format_for_bulkrax (pipe_delimited : List String) (k : String) (v : PyVal) :
    String × String :=
  if k = "id" || k = "parents" then
    let v' := uriToIdVal v
    let joined := match v' with
      | .s s => s
      | .l xs => String.intercalate ";" xs
    if k = "id" then ("bulkrax_identifier", joined) else (k, joined)
  else
    match v with
    | .l xs =>
      if pipe_delimited.contains k then (k, String.intercalate "|" xs)
      else (k, String.intercalate "; " xs)
    | .s s => (k, s)

/-- One emitted CSV row.  (The Python `dict(...)` built by `format_row` would
collapse duplicate output keys keeping the last value; the formatter keys are
pairwise distinct for distinct attribute keys, so the association list keeps
the source's content and order.) -/
abbrev Row := List (String × String)

/-- `Resource.format_row`: `__dict__` order is `id`, `admin_set` (skipped),
then the dynamic attributes in insertion order. -/
def Resource.format_row (pd : List String) (r : Resource) : Row :=
  format_for_bulkrax pd "id" (.s r.id) ::
    r.attrs.map (fun kv => format_for_bulkrax pd kv.1 kv.2)

/-- `FileSet.format_row`: `__dict__` order is the declared dataclass fields
(`file_uri` skipped) followed by the attributes added by `setattr`. -/
def FileSet.format_row (pd : List String) (fs : FileSet) : Row :=
  format_for_bulkrax pd "parents" (.s fs.parents) ::
  format_for_bulkrax pd "id" (.s fs.id) ::
  format_for_bulkrax pd "file" (.s fs.file) ::
  format_for_bulkrax pd "title" (.s fs.title) ::
  format_for_bulkrax pd "model" (.s fs.model) ::
    fs.extra.map (fun kv => format_for_bulkrax pd kv.1 (.s kv.2))

/-- `FedoraGraph.copy_files` applied to one sub-group: copy sequentially,
and a single failure raises out of the whole call, discarding the paths
accumulated so far. -/
def copy_files (copy : FileSet → Option String) :
    List FileSet → Except Unit (List String)
  | [] => .ok []
  | f :: fs =>
    match copy f with
    | none => .error ()
    | some p =>
      match copy_files copy fs with
      | .ok ps => .ok (p :: ps)
      | .error e => .error e

/-- The sub-group partition `file_sets[i : i + 10] for i in range(0, len, 10)`:
full slices of ten while they last, then the remainder (if non-empty) as the
final, shorter slice. -/
def chunksOf10 {α : Type} : List α → List (List α)
  | [] => []
  | a :: b :: c :: d :: e :: f :: g :: h :: i :: j :: rest =>
    [a, b, c, d, e, f, g, h, i, j] :: chunksOf10 rest
  | l => [l]

/-- `FedoraGraph.copy_files_concurrently`: run `copy_files` on each sub-group
of 10; a failed sub-group is logged and skipped (`continue`), the others
still contribute their paths. -/
def copy_files_concurrently (copy : FileSet → Option String)
    (file_sets : List FileSet) : List String :=
  (chunksOf10 file_sets).foldl
    (fun acc g =>
      match copy_files copy g with
      | .ok out => acc ++ out
      | .error _ => acc) []

/-! ## The batch assembler (`FedoraGraph.prepare_import_batches`) -/

/-- The `FedoraGraph` state that `prepare_import_batches` consults, plus the
two implicit inputs of the run: the wall clock (`now`) and the file-system
copy oracle (`copy`). -/
structure FedoraGraph where
  batch_size : Nat
  pipe_delimited : List String := []
  permissions : PermissionsMapping := []
  embargos : EmbargoMapping := []
  parents : ParentChildMapping := []
  now : String
  copy : FileSet → Option String

/-- Lines 487-489 of the source, in source order: embargos first, then
permissions, then parents. -/
def updateIndices (fg : FedoraGraph) (r : Resource) : Resource :=
  fg.parents.update_resource
    (fg.permissions.update_resource
      (fg.embargos.update_resource fg.now r))

/-- Lines 516-517 of the source (attachments): embargos first, then
permissions. -/
def updateFileset (fg : FedoraGraph) (f : FileSet) : FileSet :=
  fg.permissions.update_fileset (EmbargoMapping.update_fileset fg.embargos fg.now f)

/-- Python truthiness of an attribute value (`resource.parents`). -/
def pyTruthy : PyVal → Bool
  | .s v => !v.isEmpty
  | .l vs => !vs.isEmpty

/-- `any([p not in collection_ids for p in resource.parents])`.  Iterating a
Python string yields its one-character strings. -/
def pyAnyNotIn (v : PyVal) (ids : List String) : Bool :=
  match v with
  | .l xs => xs.any (fun p => !ids.contains p)
  | .s s => s.data.any (fun c => !ids.contains (String.mk [c]))

/-- The deferral test of lines 491-495: `hasattr(resource, "parents") and
resource.parents and any([p not in collection_ids for p in resource.parents])`. -/
def deferCheck (r : Resource) (collection_ids : List String) : Bool :=
  match lookupKey r.attrs "parents" with
  | none => false
  | some v => pyTruthy v && pyAnyNotIn v collection_ids

def leadsListCL : List Char → List Char → Bool
  | [], _ => true
  | _ :: _, [] => false
  | a :: as, b :: bs => a == b && leadsListCL as bs

def occursInCL (a : List Char) : List Char → Bool
  | [] => leadsListCL a []
  | c :: bs => leadsListCL a (c :: bs) || occursInCL a bs

/-- Python's substring containment `a in b` for strings (line 519:
`child_works[-1].id in file.parents`): `a` occurs contiguously in `b`. -/
def pyInStr (a b : String) : Bool := occursInCL a.data b.data

/-- `not row["bulkrax_identifier"]` in the assertion loop of lines 502-507:
an empty value — or a missing key, which would also raise — trips it. -/
def badRow (row : Row) : Bool :=
  match lookupKey row "bulkrax_identifier" with
  | some s => s.isEmpty
  | none => true

/-- The mutable assembler state at a point inside the per-batch `while` loop. -/
structure StepState where
  rows : List Row
  files_to_copy : List FileSet
  collection_ids : List String
  child_works : List Resource
  child_work_filesets : List FileSet
  filesets : List FileSet
deriving Repr

/-- Lines 515-524: handle one drained attachment — apply embargos then
permissions, then either defer it alongside the most recent child work (when
that work's id occurs in `file.parents`) or emit its row and enqueue its
binary. -/
def emitOrDeferFileset (fg : FedoraGraph) (st : StepState) (f : FileSet) :
    StepState :=
  match st.child_works.getLast? with
  | some w =>
    if pyInStr w.id f.parents then
      { st with child_work_filesets := st.child_work_filesets ++ [f] }
    else
      { st with rows := st.rows ++ [f.format_row fg.pipe_delimited]
                files_to_copy := st.files_to_copy ++ [f] }
  | none =>
    { st with rows := st.rows ++ [f.format_row fg.pipe_delimited]
              files_to_copy := st.files_to_copy ++ [f] }

def processFileset (fg : FedoraGraph) (st : StepState) (f : FileSet) : StepState :=
  emitOrDeferFileset fg st (updateFileset fg f)

/-- Lines 490-508 for an already index-updated resource: the deferral test,
collection bookkeeping, row emission with the `bulkrax_identifier` assertion,
and the `import_counter[resource.model]` attribute access.  `.error ()`
models the raising paths: the `AssertionError` on an empty
`bulkrax_identifier`, the `AttributeError` when `resource.model` is missing
(line 499 / the `import_counter` access of line 508), and the `TypeError`
when `import_counter` is keyed by an unhashable list-valued `model`. -/
def deferOrEmit (fg : FedoraGraph) (st : StepState) (r : Resource) :
    Except Unit StepState :=
  if deferCheck r st.collection_ids then
    let st := { st with child_works := st.child_works ++ [r] }
    match lookupKey r.attrs "model" with
    | some (.s _) => .ok st
    | _ => .error ()
  else
    match lookupKey r.attrs "model" with
    | none => .error ()
    | some m =>
      let st :=
        if m == PyVal.s "Collection" then
          { st with collection_ids := st.collection_ids ++ [r.id] }
        else st
      let rows := st.rows ++ [r.format_row fg.pipe_delimited]
      if rows.any badRow then .error ()
      else
        match m with
        | .s _ => .ok { st with rows := rows }
        | .l _ => .error ()

def processResource (fg : FedoraGraph) (st : StepState) (r : Resource) :
    Except Unit StepState :=
  let r := updateIndices fg r
  match deferOrEmit fg st r with
  | .error e => .error e
  | .ok st =>
    let drained := st.filesets.takeWhile (fun x => r.id == x.parents)
    let rest := st.filesets.dropWhile (fun x => r.id == x.parents)
    .ok (drained.foldl (processFileset fg) { st with filesets := rest })

/-- Result of the inner `while` loop of one batch. -/
structure InnerResult where
  st : StepState
  resources : List Resource
  done : Bool
deriving Repr

/-- The inner `while len(rows) < self.batch_size` loop (lines 480-524):
stop with `done := true` when the resource stream is exhausted, with
`done := false` when the row count has reached the threshold. -/
def innerLoop (fg : FedoraGraph) (st : StepState) :
    List Resource → Except Unit InnerResult
  | [] =>
    if st.rows.length < fg.batch_size then .ok ⟨st, [], true⟩
    else .ok ⟨st, [], false⟩
  | r :: rest =>
    if st.rows.length < fg.batch_size then
      match processResource fg st r with
      | .error e => .error e
      | .ok st1 => innerLoop fg st1 rest
    else .ok ⟨st, r :: rest, false⟩

/-- One emitted batch, enriched with the enqueued binaries (`files`) and a
marker for the final deferred-work flush; `prepare_import_batches` below
erases the extra fields down to the `(index, rows, copied paths)` triple the
generator yields. -/
structure BatchRec where
  idx : Nat
  rows : List Row
  files : List FileSet
  paths : List String
  isFlush : Bool
deriving DecidableEq, Repr

/-- The assembler state surviving the whole run. -/
structure FinalState where
  collection_ids : List String
  child_works : List Resource
  child_work_filesets : List FileSet
deriving DecidableEq, Repr

/-- The final deferred-work flush batch (lines 532-545): all deferred works
followed by all deferred attachments, with the copier run over the deferred
attachments' binaries. -/
def mkFlush (fg : FedoraGraph) (idx : Nat) (cw : List Resource)
    (cf : List FileSet) : BatchRec :=
  { idx := idx
    rows := cw.map (Resource.format_row fg.pipe_delimited)
            ++ cf.map (FileSet.format_row fg.pipe_delimited)
    files := cf
    paths := copy_files_concurrently fg.copy cf
    isFlush := true }

/-- Outcome of a run of the generator, consumed to the end. -/
inductive RunResult (α : Type) where
  | diverge
  | assertFail
  | ok (val : α)
deriving DecidableEq, Repr

/-- The outer `while not done` loop plus the final flush.  Each iteration
starts a fresh `rows` / `files_to_copy`, runs the inner loop, copies the
enqueued binaries concurrently and yields the batch.  Fuel only guards
against the genuine non-termination of the source when `batch_size = 0`;
`resources.length + 1` is enough fuel whenever `batch_size ≥ 1`. -/
def outerLoop (fg : FedoraGraph) :
    Nat → Nat → List String → List Resource → List FileSet →
    List Resource → List FileSet →
    RunResult (List BatchRec × FinalState)
  | 0, _, _, _, _, _, _ => .diverge
  | fuel + 1, idx, collIds, cw, cf, rs, fss =>
    match innerLoop fg ⟨[], [], collIds, cw, cf, fss⟩ rs with
    | .error _ => .assertFail
    | .ok res =>
      let st := res.st
      let b : BatchRec :=
        ⟨idx, st.rows, st.files_to_copy,
         copy_files_concurrently fg.copy st.files_to_copy, false⟩
      if res.done then
        let fin : FinalState := ⟨st.collection_ids, st.child_works, st.child_work_filesets⟩
        if st.child_works.isEmpty then .ok ([b], fin)
        else .ok ([b, mkFlush fg (idx + 1) st.child_works st.child_work_filesets], fin)
      else
        match outerLoop fg fuel (idx + 1) st.collection_ids st.child_works
            st.child_work_filesets res.resources st.filesets with
        | .ok (bs, fin) => .ok (b :: bs, fin)
        | .diverge => .diverge
        | .assertFail => .assertFail

/-- A complete run of the assembler over the two streams, keeping the
enriched batch records and the final state. -/
def outerRun (fg : FedoraGraph) (resources : List Resource)
    (filesets : List FileSet) : RunResult (List BatchRec × FinalState) :=
  outerLoop fg (resources.length + 1) 0 [] [] [] resources filesets

/-- `FedoraGraph.prepare_import_batches`, as the list of
`(index, rows, copied file paths)` triples the generator yields. -/
def prepare_import_batches (fg : FedoraGraph) (resources : List Resource)
    (filesets : List FileSet) : RunResult (List (Nat × List Row × List String)) :=
  match outerRun fg resources filesets with
  | .ok (bs, _) => .ok (bs.map (fun b => (b.idx, b.rows, b.paths)))
  | .diverge => .diverge
  | .assertFail => .assertFail

/-- The per-batch-index rows of a run (no file paths): what the idempotence
claim compares between runs. -/
def rowsView (r : RunResult (List BatchRec × FinalState)) :
    Option (List (Nat × List Row)) :=
  match r with
  | .ok (bs, _) => some (bs.map (fun b => (b.idx, b.rows)))
  | .diverge => none
  | .assertFail => none

/-- The rows of batch `i` of a finished run. -/
def batchRowsAt (r : RunResult (List (Nat × List Row × List String)))
    (i : Nat) : Option (List Row) :=
  match r with
  | .ok bs => (bs.get? i).map (fun b => b.2.1)
  | .diverge => none
  | .assertFail => none

/-- Shortcut instance: equality of yielded batch triples is decidable (the
chained synthesis exceeds the default instance-search size). -/
instance decEqBatchTriple : DecidableEq (Nat × List Row × List String) :=
  inferInstance

/-- A batch record without its copied-path list: index, rows, enqueued
binaries, flush marker.  Everything here is independent of the file-system
copy oracle. -/
def BatchRec.sansPaths (b : BatchRec) : Nat × List Row × List FileSet × Bool :=
  (b.idx, b.rows, b.files, b.isFlush)

/-- A run outcome with the copied-path lists stripped from every batch. -/
def sansPathsRun (r : RunResult (List BatchRec × FinalState)) :
    RunResult (List (Nat × List Row × List FileSet × Bool) × FinalState) :=
  match r with
  | .ok (bs, fin) => .ok (bs.map BatchRec.sansPaths, fin)
  | .diverge => .diverge
  | .assertFail => .assertFail

/-- The `visibility` attribute after the assembler's index application order
for visibility: embargos first (line 487 / 516), then permissions
(line 488 / 517). -/
def visibilityAfterUpdates (pm : PermissionsMapping) (em : EmbargoMapping)
    (now : String) (r : Resource) : Option PyVal :=
  lookupKey
    (PermissionsMapping.update_resource pm
      (EmbargoMapping.update_resource em now r)).attrs "visibility"

/-! ## Concrete run fixtures -/

/-- An embargo record whose release date lies in the future of the fixture
clocks below. -/
def embRecX : EmbargoRec :=
  { visibility_during_embargo := "restricted"
    visibility_after_embargo := "open"
    release_date := "2026-12-31T00:00:00" }

/-- A graph whose single work and its single fileset are both permissioned to
the public group and both carry an active embargo. -/
def fgX1 : FedoraGraph :=
  { batch_size := 5
    now := "2026-10-12T00:00:00"
    permissions := [("a/w1", ["http://p/agent/g#public"]), ("a/f1", ["http://p/agent/g#public"])]
    embargos := [("a/w1", embRecX), ("a/f1", embRecX)]
    copy := fun f => some f.file }

def wX1 : Resource := { id := "a/w1", attrs := [("model", PyVal.s "GwWork")] }

def fsX1 : FileSet :=
  { parents := "a/w1", id := "a/f1", file := "f.doc", title := "f.doc", file_uri := "u" }

/-- A graph with no index entries at all. -/
def fgX2 : FedoraGraph :=
  { batch_size := 5, now := "2026-10-12T00:00:00", copy := fun _ => none }

/-- A collection carrying a `parents` attribute that names a never-emitted
resource. -/
def collX2 : Resource :=
  { id := "a/c1", attrs := [("model", PyVal.s "Collection"), ("parents", PyVal.l ["a/zz"])] }

/-- The empty assembler state at the start of a batch with no prior history. -/
def st0X : StepState :=
  { rows := [], files_to_copy := [], collection_ids := [], child_works := []
    child_work_filesets := [], filesets := [] }

/-- A graph with threshold 1 and an always-succeeding copier. -/
def fgX3 : FedoraGraph :=
  { batch_size := 1, now := "2026-10-12T00:00:00", copy := fun f => some f.file }

/-- A parent-child index entry replacing the fixture resource's parents. -/
def pcX4 : ParentChildMapping := [("a/r1", ["a/B"])]

def rX4 : Resource :=
  { id := "a/r1", attrs := [("model", PyVal.s "GwWork"), ("parents", PyVal.l ["a/A"])] }

/-- A work whose declared parent `a/missing` is never emitted in any batch. -/
def wX5 : Resource :=
  { id := "a/w9", attrs := [("model", PyVal.s "GwWork"), ("parents", PyVal.l ["a/missing"])] }

/-- Triples whose predicates match nothing in an empty field mapping. -/
def triplesX6 : List Triple :=
  [{ p := "http://pred/one", o := "v1" }, { p := "http://pred/two", o := "v2" }]

/-- A graph whose embargo index holds a release date lying strictly between
the two clock instants used by the idempotence counterexample. -/
def fgX9 : FedoraGraph :=
  { batch_size := 5
    now := "X"
    embargos := [("a/w1", { visibility_during_embargo := "restricted"
                            visibility_after_embargo := "open"
                            release_date := "2026-11-01T00:00:00" })]
    copy := fun _ => none }

/-- The default-configuration graph (`batch_size = 50`). -/
def fgX10 : FedoraGraph :=
  { batch_size := 50, now := "2026-10-12T00:00:00", copy := fun _ => none }

/-! ## Helper lemmas -/

theorem lookupKey_setKey_self {α : Type} (l : List (String × α)) (k : String)
    (v : α) : lookupKey (setKey l k v) k = some v := by
  induction l with
  | nil => simp [setKey, lookupKey]
  | cons kv rest ih =>
    obtain ⟨k', v'⟩ := kv
    by_cases h : k' = k
    · simp [setKey, lookupKey, h]
    · simp [setKey, lookupKey, h, ih]

theorem lookupKey_setKey_ne {α : Type} (l : List (String × α)) (k k' : String)
    (v : α) (h : k' ≠ k) : lookupKey (setKey l k v) k' = lookupKey l k' := by
  induction l with
  | nil => simp [setKey, lookupKey, Ne.symm h]
  | cons kv rest ih =>
    obtain ⟨k0, v0⟩ := kv
    by_cases h0 : k0 = k
    · subst h0
      simp [setKey, lookupKey, Ne.symm h]
    · simp [setKey, lookupKey, h0, ih]

theorem permVisibility_cases (gs : List String) (acc : String) :
    permVisibility gs acc = acc ∨ permVisibility gs acc = "open" ∨
      permVisibility gs acc = "restricted" := by
  induction gs generalizing acc with
  | nil => simp [permVisibility]
  | cons g gs ih =>
    by_cases hp : groupToId g = "public"
    · simp [permVisibility, hp]
    · by_cases hr : groupToId g = "registered"
      · simp only [permVisibility, hp, hr, if_false, if_true]
        rcases ih "restricted" with h | h | h <;> simp [h]
      · simpa [permVisibility, hp, hr] using ih acc

/-! ## Invariants of the fileset drain -/

theorem emitOrDeferFileset_child_works (fg : FedoraGraph) (st : StepState)
    (f : FileSet) : (emitOrDeferFileset fg st f).child_works = st.child_works := by
  unfold emitOrDeferFileset
  cases st.child_works.getLast? with
  | none => rfl
  | some w => by_cases hp : pyInStr w.id f.parents <;> simp [hp]

theorem emitOrDeferFileset_collection_ids (fg : FedoraGraph) (st : StepState)
    (f : FileSet) :
    (emitOrDeferFileset fg st f).collection_ids = st.collection_ids := by
  unfold emitOrDeferFileset
  cases st.child_works.getLast? with
  | none => rfl
  | some w => by_cases hp : pyInStr w.id f.parents <;> simp [hp]

theorem emitOrDeferFileset_count (fg : FedoraGraph) (st : StepState)
    (f : FileSet) :
    (emitOrDeferFileset fg st f).rows.length + st.files_to_copy.length
      = st.rows.length + (emitOrDeferFileset fg st f).files_to_copy.length := by
  unfold emitOrDeferFileset
  cases st.child_works.getLast? with
  | none => simp; omega
  | some w =>
    by_cases hp : pyInStr w.id f.parents
    · simp [hp]
    · simp [hp]; omega

theorem foldl_processFileset_child_works (fg : FedoraGraph) (l : List FileSet) :
    ∀ st : StepState,
      (l.foldl (processFileset fg) st).child_works = st.child_works := by
  induction l with
  | nil => intro st; rfl
  | cons f fs ih =>
    intro st
    rw [List.foldl_cons, ih, processFileset, emitOrDeferFileset_child_works]

theorem foldl_processFileset_collection_ids (fg : FedoraGraph)
    (l : List FileSet) :
    ∀ st : StepState,
      (l.foldl (processFileset fg) st).collection_ids = st.collection_ids := by
  induction l with
  | nil => intro st; rfl
  | cons f fs ih =>
    intro st
    rw [List.foldl_cons, ih, processFileset, emitOrDeferFileset_collection_ids]

theorem foldl_processFileset_count (fg : FedoraGraph) (l : List FileSet) :
    ∀ st : StepState,
      (l.foldl (processFileset fg) st).rows.length + st.files_to_copy.length
        = st.rows.length + (l.foldl (processFileset fg) st).files_to_copy.length := by
  induction l with
  | nil => intro st; rfl
  | cons f fs ih =>
    intro st
    rw [List.foldl_cons]
    have h1 := emitOrDeferFileset_count fg st (updateFileset fg f)
    have h2 := ih (processFileset fg st f)
    rw [processFileset] at h2 ⊢
    omega

/-! ## Invariants of the per-resource step -/

theorem deferOrEmit_ok (fg : FedoraGraph) (st : StepState) (r : Resource)
    (st1 : StepState) (h : deferOrEmit fg st r = .ok st1) :
    (deferCheck r st.collection_ids = true
      ∧ st1.rows = st.rows
      ∧ st1.files_to_copy = st.files_to_copy
      ∧ st1.child_works = st.child_works ++ [r]
      ∧ st1.child_work_filesets = st.child_work_filesets
      ∧ st1.filesets = st.filesets)
    ∨ (deferCheck r st.collection_ids = false
      ∧ st1.rows = st.rows ++ [r.format_row fg.pipe_delimited]
      ∧ st1.files_to_copy = st.files_to_copy
      ∧ st1.child_works = st.child_works
      ∧ st1.child_work_filesets = st.child_work_filesets
      ∧ st1.filesets = st.filesets) := by
  unfold deferOrEmit at h
  by_cases hd : deferCheck r st.collection_ids
  · left
    rw [if_pos hd] at h
    refine ⟨hd, ?_⟩
    cases hm : lookupKey r.attrs "model" with
    | none => rw [hm] at h; cases h
    | some m =>
      rw [hm] at h
      cases m with
      | l vs => cases h
      | s v => cases h; simp
  · right
    rw [if_neg hd] at h
    refine ⟨by simpa using hd, ?_⟩
    cases hm : lookupKey r.attrs "model" with
    | none => rw [hm] at h; cases h
    | some m =>
      rw [hm] at h
      by_cases hc : m == PyVal.s "Collection"
      · simp only [hc, if_true] at h
        by_cases hb :
            (st.rows ++ [r.format_row fg.pipe_delimited]).any badRow
        · simp only [hb, if_true] at h
          cases h
        · simp only [hb, Bool.false_eq_true, if_false] at h
          have hm2 : m = PyVal.s "Collection" := by simpa using hc
          subst hm2
          cases h; simp
      · simp only [hc, Bool.false_eq_true, if_false] at h
        by_cases hb :
            (st.rows ++ [r.format_row fg.pipe_delimited]).any badRow
        · simp only [hb, if_true] at h
          cases h
        · simp only [hb, Bool.false_eq_true, if_false] at h
          cases m with
          | l vs => cases h
          | s v => cases h; simp

theorem processResource_child_works (fg : FedoraGraph) (st : StepState)
    (r : Resource) (st1 : StepState) (h : processResource fg st r = .ok st1) :
    (deferCheck (updateIndices fg r) st.collection_ids = true
      ∧ st1.child_works = st.child_works ++ [updateIndices fg r])
    ∨ (deferCheck (updateIndices fg r) st.collection_ids = false
      ∧ st1.child_works = st.child_works) := by
  unfold processResource at h
  cases hde : deferOrEmit fg st (updateIndices fg r) with
  | error e => simp only [hde] at h; cases h
  | ok stA =>
    simp only [hde] at h
    cases h
    have hcw :=
      foldl_processFileset_child_works fg
        (stA.filesets.takeWhile (fun x => (updateIndices fg r).id == x.parents))
        { stA with
          filesets :=
            stA.filesets.dropWhile (fun x => (updateIndices fg r).id == x.parents) }
    rcases deferOrEmit_ok fg st (updateIndices fg r) stA hde with
      ⟨hd, _, _, hcwA, _, _⟩ | ⟨hd, _, _, hcwA, _, _⟩
    · left
      exact ⟨hd, by rw [hcw]; exact hcwA⟩
    · right
      exact ⟨hd, by rw [hcw]; exact hcwA⟩

theorem processResource_count (fg : FedoraGraph) (st : StepState)
    (r : Resource) (st1 : StepState) (h : processResource fg st r = .ok st1) :
    st1.rows.length + st.files_to_copy.length
      ≤ st.rows.length + 1 + st1.files_to_copy.length := by
  unfold processResource at h
  cases hde : deferOrEmit fg st (updateIndices fg r) with
  | error e => simp only [hde] at h; cases h
  | ok stA =>
    simp only [hde] at h
    cases h
    have hc :=
      foldl_processFileset_count fg
        (stA.filesets.takeWhile (fun x => (updateIndices fg r).id == x.parents))
        { stA with
          filesets :=
            stA.filesets.dropWhile (fun x => (updateIndices fg r).id == x.parents) }
    simp only at hc
    rcases deferOrEmit_ok fg st (updateIndices fg r) stA hde with
      ⟨_, hrows, hfiles, _, _, _⟩ | ⟨_, hrows, hfiles, _, _, _⟩
    · have hr := congrArg List.length hrows
      have hf := congrArg List.length hfiles
      omega
    · have hr := congrArg List.length hrows
      have hf := congrArg List.length hfiles
      simp only [List.length_append, List.length_cons, List.length_nil] at hr
      omega

theorem innerLoop_bound (fg : FedoraGraph) :
    ∀ (rs : List Resource) (st : StepState) (res : InnerResult),
      innerLoop fg st rs = .ok res →
      st.rows.length ≤ fg.batch_size + st.files_to_copy.length →
      res.st.rows.length ≤ fg.batch_size + res.st.files_to_copy.length := by
  intro rs
  induction rs with
  | nil =>
    intro st res h hb
    unfold innerLoop at h
    by_cases hlt : st.rows.length < fg.batch_size
    · rw [if_pos hlt] at h; cases h; exact hb
    · rw [if_neg hlt] at h; cases h; exact hb
  | cons r rest ih =>
    intro st res h hb
    unfold innerLoop at h
    by_cases hlt : st.rows.length < fg.batch_size
    · rw [if_pos hlt] at h
      cases hp : processResource fg st r with
      | error e => rw [hp] at h; cases h
      | ok st1 =>
        rw [hp] at h
        refine ih st1 res h ?_
        have := processResource_count fg st r st1 hp
        omega
    · rw [if_neg hlt] at h; cases h; exact hb

theorem outerLoop_shape (fg : FedoraGraph) :
    ∀ (fuel idx : Nat) (collIds : List String) (cw : List Resource)
      (cf : List FileSet) (rs : List Resource) (fss : List FileSet)
      (bs : List BatchRec) (fin : FinalState),
      outerLoop fg fuel idx collIds cw cf rs fss = .ok (bs, fin) →
      ∃ regs n,
        bs = regs ++
          (if fin.child_works.isEmpty then []
           else [mkFlush fg n fin.child_works fin.child_work_filesets])
        ∧ ∀ b ∈ regs, b.isFlush = false
            ∧ b.paths = copy_files_concurrently fg.copy b.files
            ∧ b.rows.length ≤ fg.batch_size + b.files.length := by
  intro fuel
  induction fuel with
  | zero =>
    intro idx collIds cw cf rs fss bs fin h
    simp only [outerLoop] at h
    cases h
  | succ fuel ih =>
    intro idx collIds cw cf rs fss bs fin h
    unfold outerLoop at h
    cases hin : innerLoop fg ⟨[], [], collIds, cw, cf, fss⟩ rs with
    | error e => simp only [hin] at h; cases h
    | ok res =>
      simp only [hin] at h
      have hbound :=
        innerLoop_bound fg rs ⟨[], [], collIds, cw, cf, fss⟩ res hin
          (Nat.zero_le _)
      by_cases hdone : res.done
      · simp only [hdone, if_true] at h
        by_cases hcw : res.st.child_works.isEmpty
        · simp only [hcw, if_true, RunResult.ok.injEq, Prod.mk.injEq] at h
          obtain ⟨hbs, hfin⟩ := h
          subst hbs; subst hfin
          refine ⟨[⟨idx, res.st.rows, res.st.files_to_copy,
            copy_files_concurrently fg.copy res.st.files_to_copy, false⟩], 0, ?_, ?_⟩
          · simp [hcw]
          · intro b hb
            simp only [List.mem_singleton] at hb
            subst hb
            exact ⟨rfl, rfl, hbound⟩
        · simp only [hcw, Bool.false_eq_true, if_false, RunResult.ok.injEq,
            Prod.mk.injEq] at h
          obtain ⟨hbs, hfin⟩ := h
          subst hbs; subst hfin
          refine ⟨[⟨idx, res.st.rows, res.st.files_to_copy,
            copy_files_concurrently fg.copy res.st.files_to_copy, false⟩],
            idx + 1, ?_, ?_⟩
          · simp [hcw]
          · intro b hb
            simp only [List.mem_singleton] at hb
            subst hb
            exact ⟨rfl, rfl, hbound⟩
      · simp only [hdone, Bool.false_eq_true, if_false] at h
        cases hrec : outerLoop fg fuel (idx + 1) res.st.collection_ids
            res.st.child_works res.st.child_work_filesets res.resources
            res.st.filesets with
        | diverge => rw [hrec] at h; cases h
        | assertFail => rw [hrec] at h; cases h
        | ok p =>
          obtain ⟨bs', fin'⟩ := p
          rw [hrec] at h
          simp only [RunResult.ok.injEq, Prod.mk.injEq] at h
          obtain ⟨hbs, hfin⟩ := h
          subst hbs; subst hfin
          obtain ⟨regs, n, hshape, hprops⟩ :=
            ih (idx + 1) res.st.collection_ids res.st.child_works
              res.st.child_work_filesets res.resources res.st.filesets bs' fin' hrec
          refine ⟨⟨idx, res.st.rows, res.st.files_to_copy,
            copy_files_concurrently fg.copy res.st.files_to_copy, false⟩ :: regs,
            n, ?_, ?_⟩
          · rw [hshape, List.cons_append]
          · intro b hb
            rcases List.mem_cons.mp hb with hb | hb
            · subst hb
              exact ⟨rfl, rfl, hbound⟩
            · exact hprops b hb

theorem deferCheck_iff (r : Resource) (ids : List String) :
    deferCheck r ids = true
      ↔ ∃ v, lookupKey r.attrs "parents" = some v
          ∧ pyTruthy v = true ∧ pyAnyNotIn v ids = true := by
  unfold deferCheck
  cases h : lookupKey r.attrs "parents" with
  | none => simp
  | some v => simp [Bool.and_eq_true]

theorem append_singleton_ne {α : Type} (l : List α) (x : α) :
    l ++ [x] ≠ l := by
  intro he
  have := congrArg List.length he
  simp at this

/-! ## Copier lemmas -/

theorem copy_files_eq (copy : FileSet → Option String) (g : List FileSet) :
    copy_files copy g =
      if g.all (fun f => (copy f).isSome) then .ok (g.filterMap copy)
      else .error () := by
  induction g with
  | nil => simp [copy_files]
  | cons f fs ih =>
    unfold copy_files
    cases hc : copy f with
    | none => simp [List.all_cons, hc]
    | some p =>
      rw [ih]
      by_cases ha : fs.all (fun f => (copy f).isSome)
      · simp [List.all_cons, hc, ha, List.filterMap_cons]
      · simp [List.all_cons, hc, ha]

theorem copy_files_concurrently_foldl (copy : FileSet → Option String) :
    ∀ (gs : List (List FileSet)) (acc : List String),
      gs.foldl
        (fun acc g =>
          match copy_files copy g with
          | .ok out => acc ++ out
          | .error _ => acc) acc
      = acc ++ (gs.map (fun g =>
          if g.all (fun f => (copy f).isSome) then g.filterMap copy
          else [])).flatten := by
  intro gs
  induction gs with
  | nil => intro acc; simp
  | cons g gs ih =>
    intro acc
    rw [List.foldl_cons, copy_files_eq]
    by_cases ha : g.all (fun f => (copy f).isSome)
    · simp only [ha, if_true]
      rw [ih, List.map_cons, List.flatten_cons, if_pos ha, List.append_assoc]
    · simp only [ha, Bool.false_eq_true, if_false]
      rw [ih, List.map_cons, List.flatten_cons, if_neg ha, List.nil_append]

theorem chunksOf10_flatten {α : Type} :
    ∀ l : List α, (chunksOf10 l).flatten = l := by
  intro l
  induction l using chunksOf10.induct with
  | case1 => simp [chunksOf10]
  | case2 a b c d e f g h i j rest ih =>
    rw [chunksOf10]
    simp [ih]
  | case3 l h1 h2 =>
    rw [chunksOf10] <;> first | exact h1 | exact h2 | simp

theorem chunksOf10_length_le {α : Type} :
    ∀ (l : List α), ∀ g ∈ chunksOf10 l, g.length ≤ 10 := by
  intro l
  induction l using chunksOf10.induct with
  | case1 =>
    intro g hg
    rw [chunksOf10] at hg
    simp at hg
  | case2 a b c d e f g h i j rest ih =>
    intro g2 hg
    rw [chunksOf10] at hg
    rcases List.mem_cons.mp hg with hg | hg
    · subst hg; simp
    · exact ih g2 hg
  | case3 l h1 h2 =>
    intro g hg
    have he : chunksOf10 l = [l] := by
      rw [chunksOf10] <;> first | exact h1 | exact h2
    rw [he] at hg
    have hgl : g = l := by simpa using hg
    rw [hgl]
    rcases l with _ | ⟨a, _ | ⟨b, _ | ⟨c, _ | ⟨d, _ | ⟨e, _ | ⟨f, _ |
      ⟨g1, _ | ⟨h3, _ | ⟨i1, _ | ⟨j1, rest⟩⟩⟩⟩⟩⟩⟩⟩⟩⟩
    all_goals first
      | exact absurd rfl (h2 _ _ _ _ _ _ _ _ _ _ _)
      | simp

theorem flatten_map_step_length_le (copy : FileSet → Option String) :
    ∀ gs : List (List FileSet),
      ((gs.map (fun g =>
          if g.all (fun f => (copy f).isSome) then g.filterMap copy
          else [])).flatten).length ≤ gs.flatten.length := by
  intro gs
  induction gs with
  | nil => simp
  | cons g gs ih =>
    simp only [List.map_cons, List.flatten_cons, List.length_append]
    have hg : (if g.all (fun f => (copy f).isSome) then g.filterMap copy
        else []).length ≤ g.length := by
      by_cases ha : g.all (fun f => (copy f).isSome)
      · rw [if_pos ha]; exact List.length_filterMap_le copy g
      · rw [if_neg ha]; simp
    omega

/-! ## The rows of a run do not depend on the copy oracle -/

theorem processResource_copy_irrel (b : Nat) (pd : List String)
    (p : PermissionsMapping) (e : EmbargoMapping) (pc : ParentChildMapping)
    (n : String) (c1 c2 : FileSet → Option String) (st : StepState)
    (r : Resource) :
    processResource ⟨b, pd, p, e, pc, n, c1⟩ st r
      = processResource ⟨b, pd, p, e, pc, n, c2⟩ st r := rfl

theorem innerLoop_copy_irrel (b : Nat) (pd : List String)
    (p : PermissionsMapping) (e : EmbargoMapping) (pc : ParentChildMapping)
    (n : String) (c1 c2 : FileSet → Option String) :
    ∀ (rs : List Resource) (st : StepState),
      innerLoop ⟨b, pd, p, e, pc, n, c1⟩ st rs
        = innerLoop ⟨b, pd, p, e, pc, n, c2⟩ st rs := by
  intro rs
  induction rs with
  | nil => intro st; rfl
  | cons r rest ih =>
    intro st
    unfold innerLoop
    rw [processResource_copy_irrel b pd p e pc n c1 c2 st r]
    cases processResource ⟨b, pd, p, e, pc, n, c2⟩ st r with
    | error e2 => rfl
    | ok st1 => simp only [ih st1]

theorem outerLoop_copy_irrel (b : Nat) (pd : List String)
    (p : PermissionsMapping) (e : EmbargoMapping) (pc : ParentChildMapping)
    (n : String) (c1 c2 : FileSet → Option String) :
    ∀ (fuel idx : Nat) (collIds : List String) (cw : List Resource)
      (cf : List FileSet) (rs : List Resource) (fss : List FileSet),
      sansPathsRun (outerLoop ⟨b, pd, p, e, pc, n, c1⟩ fuel idx collIds cw cf rs fss)
        = sansPathsRun (outerLoop ⟨b, pd, p, e, pc, n, c2⟩ fuel idx collIds cw cf rs fss) := by
  intro fuel
  induction fuel with
  | zero => intro idx collIds cw cf rs fss; rfl
  | succ fuel ih =>
    intro idx collIds cw cf rs fss
    unfold outerLoop
    rw [innerLoop_copy_irrel b pd p e pc n c1 c2 rs]
    cases hin : innerLoop ⟨b, pd, p, e, pc, n, c2⟩
        ⟨[], [], collIds, cw, cf, fss⟩ rs with
    | error e2 => rfl
    | ok res =>
      by_cases hdone : res.done
      · simp only [hdone, if_true]
        by_cases hcw : res.st.child_works.isEmpty
        · simp only [hcw, if_true]
          rfl
        · simp only [hcw, Bool.false_eq_true, if_false]
          rfl
      · simp only [hdone, Bool.false_eq_true, if_false]
        have hrec := ih (idx + 1) res.st.collection_ids res.st.child_works
          res.st.child_work_filesets res.resources res.st.filesets
        cases h1 : outerLoop ⟨b, pd, p, e, pc, n, c1⟩ fuel (idx + 1)
            res.st.collection_ids res.st.child_works res.st.child_work_filesets
            res.resources res.st.filesets with
        | diverge =>
          cases h2 : outerLoop ⟨b, pd, p, e, pc, n, c2⟩ fuel (idx + 1)
              res.st.collection_ids res.st.child_works res.st.child_work_filesets
              res.resources res.st.filesets with
          | diverge => rfl
          | assertFail => rw [h1, h2] at hrec; cases hrec
          | ok q => rw [h1, h2] at hrec; obtain ⟨qs, qf⟩ := q; cases hrec
        | assertFail =>
          cases h2 : outerLoop ⟨b, pd, p, e, pc, n, c2⟩ fuel (idx + 1)
              res.st.collection_ids res.st.child_works res.st.child_work_filesets
              res.resources res.st.filesets with
          | diverge => rw [h1, h2] at hrec; cases hrec
          | assertFail => rfl
          | ok q => rw [h1, h2] at hrec; obtain ⟨qs, qf⟩ := q; cases hrec
        | ok q1 =>
          obtain ⟨bs1, fin1⟩ := q1
          cases h2 : outerLoop ⟨b, pd, p, e, pc, n, c2⟩ fuel (idx + 1)
              res.st.collection_ids res.st.child_works res.st.child_work_filesets
              res.resources res.st.filesets with
          | diverge => rw [h1, h2] at hrec; cases hrec
          | assertFail => rw [h1, h2] at hrec; cases hrec
          | ok q2 =>
            obtain ⟨bs2, fin2⟩ := q2
            rw [h1, h2] at hrec
            simp only [sansPathsRun, RunResult.ok.injEq, Prod.mk.injEq] at hrec ⊢
            exact ⟨by simp [BatchRec.sansPaths, hrec.1], hrec.2⟩

/-! ## Index application lemmas -/

theorem make_resource_foldl_unmatched (m : Mapping) :
    ∀ (triples : List Triple) (acc : Attrs),
      (∀ t ∈ triples, lookupMapping m t.p = none) →
      triples.foldl (addTriple m) acc = acc := by
  intro triples
  induction triples with
  | nil => intro acc _; rfl
  | cons t ts ih =>
    intro acc hnone
    rw [List.foldl_cons]
    have ht : addTriple m acc t = acc := by
      unfold addTriple
      rw [hnone t (List.mem_cons_self t ts)]
    rw [ht]
    exact ih acc (fun t2 ht2 => hnone t2 (List.mem_cons_of_mem t ht2))

theorem embargo_update_of_none (em : EmbargoMapping) (now : String)
    (r : Resource) (h : lookupKey em r.id = none) :
    EmbargoMapping.update_resource em now r = r := by
  unfold EmbargoMapping.update_resource
  rw [h]

theorem permissions_update_of_none (pm : PermissionsMapping) (r : Resource)
    (h : lookupKey pm r.id = none) :
    PermissionsMapping.update_resource pm r = r := by
  unfold PermissionsMapping.update_resource
  rw [h]

theorem parents_update_of_none (pc : ParentChildMapping) (r : Resource)
    (h : lookupKey pc r.id = none) :
    ParentChildMapping.update_resource pc r = r := by
  unfold ParentChildMapping.update_resource
  rw [h]

theorem updateIndices_of_none (fg : FedoraGraph) (r : Resource)
    (hp : lookupKey fg.permissions r.id = none)
    (he : lookupKey fg.embargos r.id = none)
    (hc : lookupKey fg.parents r.id = none) :
    updateIndices fg r = r := by
  unfold updateIndices
  rw [embargo_update_of_none fg.embargos fg.now r he,
    permissions_update_of_none fg.permissions r hp,
    parents_update_of_none fg.parents r hc]

theorem embargo_update_id (em : EmbargoMapping) (now : String) (r : Resource) :
    (EmbargoMapping.update_resource em now r).id = r.id := by
  unfold EmbargoMapping.update_resource
  cases lookupKey em r.id with
  | none => rfl
  | some er =>
    by_cases ha : is_active_embargo now er
    · simp only [ha, if_true]
    · simp only [ha, Bool.false_eq_true, if_false]

theorem permissions_visibility_cases (pm : PermissionsMapping) (r : Resource) :
    lookupKey (PermissionsMapping.update_resource pm r).attrs "visibility"
        = lookupKey r.attrs "visibility"
    ∨ lookupKey (PermissionsMapping.update_resource pm r).attrs "visibility" ∈
        [some (PyVal.s "open"), some (PyVal.s "restricted"), some (PyVal.s "private")] := by
  unfold PermissionsMapping.update_resource
  cases hperm : lookupKey pm r.id with
  | none => left; rfl
  | some groups =>
    by_cases hge : groups.isEmpty
    · left; simp [hge]
    · right
      rcases permVisibility_cases groups "private" with h | h | h <;>
        simp [hge, h, lookupKey_setKey_self]

theorem embargo_visibility_cases (em : EmbargoMapping) (now : String)
    (r : Resource) :
    lookupKey (EmbargoMapping.update_resource em now r).attrs "visibility"
        = lookupKey r.attrs "visibility"
    ∨ lookupKey (EmbargoMapping.update_resource em now r).attrs "visibility"
        = some (PyVal.s "embargo")
    ∨ ∃ er, lookupKey em r.id = some er
        ∧ lookupKey (EmbargoMapping.update_resource em now r).attrs "visibility"
            = some (PyVal.s er.visibility_after_embargo) := by
  unfold EmbargoMapping.update_resource
  cases h : lookupKey em r.id with
  | none => left; rfl
  | some er =>
    by_cases ha : is_active_embargo now er
    · right; left
      simp only [ha, if_true]
      exact lookupKey_setKey_self _ _ _
    · right; right
      refine ⟨er, rfl, ?_⟩
      simp only [ha, Bool.false_eq_true, if_false]
      exact lookupKey_setKey_self _ _ _

theorem visibilityAfterUpdates_cases (pm : PermissionsMapping)
    (em : EmbargoMapping) (now : String) (r : Resource) :
    visibilityAfterUpdates pm em now r = lookupKey r.attrs "visibility"
    ∨ visibilityAfterUpdates pm em now r ∈
        [some (PyVal.s "open"), some (PyVal.s "restricted"),
         some (PyVal.s "private"), some (PyVal.s "embargo")]
    ∨ ∃ er, lookupKey em r.id = some er
        ∧ visibilityAfterUpdates pm em now r
            = some (PyVal.s er.visibility_after_embargo) := by
  unfold visibilityAfterUpdates
  rcases permissions_visibility_cases pm (EmbargoMapping.update_resource em now r)
    with h | h
  · rw [h]
    rcases embargo_visibility_cases em now r with h2 | h2 | ⟨er, hl, h2⟩
    · left; exact h2
    · right; left; rw [h2]; simp
    · right; right
      refine ⟨er, ?_, h2⟩
      rw [← hl]
  · right; left
    simp only [List.mem_cons, List.mem_singleton] at h ⊢
    tauto

/-! ## Claim theorems -/

/-- C7: `copy_files_concurrently` partitions the file references into
sub-groups of at most ten that exactly cover the input in order; a sub-group
in which any single copy raises contributes no paths at all (partial
successes are discarded), every other sub-group still contributes its copied
paths, the run continues instead of failing, and therefore the returned
copied-path list can be shorter than the input list. -/
theorem c7_copier_subgroup_isolation (copy : FileSet → Option String)
    (files : List FileSet) :
    copy_files_concurrently copy files
      = ((chunksOf10 files).map (fun g =>
          if g.all (fun f => (copy f).isSome) then g.filterMap copy
          else [])).flatten
    ∧ (chunksOf10 files).flatten = files
    ∧ (∀ g ∈ chunksOf10 files, g.length ≤ 10)
    ∧ (copy_files_concurrently copy files).length ≤ files.length := by
  have heq : copy_files_concurrently copy files
      = ((chunksOf10 files).map (fun g =>
          if g.all (fun f => (copy f).isSome) then g.filterMap copy
          else [])).flatten := by
    unfold copy_files_concurrently
    rw [copy_files_concurrently_foldl]
    simp
  refine ⟨heq, chunksOf10_flatten files, chunksOf10_length_le files, ?_⟩
  rw [heq]
  have hlen := flatten_map_step_length_le copy (chunksOf10 files)
  rw [chunksOf10_flatten files] at hlen
  exact hlen

/-- C7 witness: the characterization applied to a concrete one-file input. -/
theorem c7_copier_subgroup_isolation_witness :
    ([fsX1] : List FileSet).length ≤ 10
      ∧ (copy_files_concurrently fgX3.copy [fsX1]).length ≤ 1 :=
  ⟨(c7_copier_subgroup_isolation fgX3.copy [fsX1]).2.2.1 [fsX1] (by decide),
   (c7_copier_subgroup_isolation fgX3.copy [fsX1]).2.2.2⟩

/-- C1: the claim says permission resolution runs before embargo resolution
so that an active embargo wins; the code applies `embargos.update_resource`
BEFORE `permissions.update_resource` (lines 487-488, and 516-517 for drained
attachments), so at the failing input — a work and its fileset both
permissioned to the public group and both under an embargo whose release
date is in the future of the run's clock — the emitted rows carry
`visibility = "open"`, not `"embargo"`. -/
theorem c1_active_embargo_overridden_at_failing_input :
    is_active_embargo fgX1.now embRecX = true
    ∧ groupToId "http://p/agent/g#public" = "public"
    ∧ (batchRowsAt (prepare_import_batches fgX1 [wX1] [fsX1]) 0).map
        (fun rows => rows.map (fun row => lookupKey row "visibility"))
      = some [some "open", some "open"] := by decide

/-- C2 counterexample: a resource of kind Collection whose `parents`
attribute names a never-emitted id IS deferred by the assembler — its row is
absent from batch 0 and appears only in the final deferred-work flush batch,
refuting "a resource of kind Collection is never deferred". -/
theorem c2_collection_deferred_at_concrete_input :
    lookupKey collX2.attrs "model" = some (PyVal.s "Collection")
    ∧ prepare_import_batches fgX2 [collX2] []
      = .ok [(0, [], []),
             (1, [[("bulkrax_identifier", "c1"), ("model", "Collection"),
                   ("parents", "zz")]], [])] := by decide

/-- C2 (amended): a resource pulled from the stream is deferred (appended to
the deferred list) if and only if, after index application, its `parents`
attribute is present, truthy, and contains at least one id outside the
emitted-collections set — uniformly for every resource kind, collections
included (the code does not special-case collections). -/
theorem c2_deferral_iff (fg : FedoraGraph) (st : StepState) (r : Resource)
    (st1 : StepState) (h : processResource fg st r = .ok st1) :
    st1.child_works = st.child_works ++ [updateIndices fg r]
      ↔ ∃ v, lookupKey (updateIndices fg r).attrs "parents" = some v
          ∧ pyTruthy v = true ∧ pyAnyNotIn v st.collection_ids = true := by
  rcases processResource_child_works fg st r st1 h with ⟨hd, hcw⟩ | ⟨hd, hcw⟩
  · exact iff_of_true hcw ((deferCheck_iff _ _).mp hd)
  · refine iff_of_false ?_ ?_
    · rw [hcw]
      exact fun he => append_singleton_ne _ _ he.symm
    · intro hex
      have hcontra := (deferCheck_iff (updateIndices fg r) st.collection_ids).mpr hex
      rw [hd] at hcontra
      cases hcontra

/-- C2 witness: the deferral criterion extracted from a concrete deferring
step of the assembler. -/
theorem c2_deferral_iff_witness :
    ∃ v, lookupKey (updateIndices fgX2 collX2).attrs "parents" = some v
      ∧ pyTruthy v = true ∧ pyAnyNotIn v st0X.collection_ids = true :=
  (c2_deferral_iff fgX2 st0X collX2
      { rows := [], files_to_copy := [], collection_ids := [],
        child_works := [collX2], child_work_filesets := [], filesets := [] }
      (by rfl)).mp (by rfl)

/-- C3 counterexample: with threshold 1 and a single work carrying one
attachment, batch 0 — a regular batch, since batch 1 follows it and no
deferred flush exists — holds 2 rows, exceeding the threshold, because the
attachment rows are appended after the size check. -/
theorem c3_nonfinal_batch_exceeds_threshold :
    fgX3.batch_size = 1
    ∧ (batchRowsAt (prepare_import_batches fgX3 [wX1] [fsX1]) 0).map
        List.length = some 2
    ∧ batchRowsAt (prepare_import_batches fgX3 [wX1] [fsX1]) 1 = some [] := by
  decide

/-- C3 (amended): in every NON-flush batch of a successful run, the row count
exceeds the configured threshold by at most the number of attachment files
enqueued for that batch — equivalently, the resource rows alone never exceed
the threshold; the total can overshoot in any batch, not only the final
flush, by the last resource's drained attachment rows. -/
theorem c3_regular_batch_row_bound (fg : FedoraGraph) (rs : List Resource)
    (fss : List FileSet) (bs : List BatchRec) (fin : FinalState) (b : BatchRec)
    (hrun : outerRun fg rs fss = .ok (bs, fin)) (hb : b ∈ bs)
    (hreg : b.isFlush = false) :
    b.rows.length ≤ fg.batch_size + b.files.length := by
  obtain ⟨regs, n, hshape, hprops⟩ :=
    outerLoop_shape fg (rs.length + 1) 0 [] [] [] rs fss bs fin hrun
  rw [hshape] at hb
  rcases List.mem_append.mp hb with hbr | hbf
  · exact (hprops b hbr).2.2
  · by_cases hcw : fin.child_works.isEmpty
    · rw [if_pos hcw] at hbf
      simp at hbf
    · rw [if_neg hcw] at hbf
      have hbm : b = mkFlush fg n fin.child_works fin.child_work_filesets := by
        simpa using hbf
      rw [hbm] at hreg
      simp [mkFlush] at hreg

/-- C3 witness: the bound applied to the single batch of an empty run. -/
theorem c3_regular_batch_row_bound_witness :
    (⟨0, [], [], [], false⟩ : BatchRec).rows.length
      ≤ fgX10.batch_size + (⟨0, [], [], [], false⟩ : BatchRec).files.length :=
  c3_regular_batch_row_bound fgX10 [] [] [⟨0, [], [], [], false⟩]
    ⟨[], [], []⟩ ⟨0, [], [], [], false⟩ (by rfl) (by simp) (by rfl)

/-- C4 counterexample: a resource whose `parents` attribute contains `a/A`
loses it when the parent-child index holds `["a/B"]` for its id — the index
application REPLACES the parents value, so the set shrinks, refuting "never
loses an element". -/
theorem c4_parents_replaced_not_unioned :
    lookupKey rX4.attrs "parents" = some (PyVal.l ["a/A"])
    ∧ lookupKey (ParentChildMapping.update_resource pcX4 rX4).attrs "parents"
        = some (PyVal.l ["a/B"])
    ∧ "a/A" ∉ (["a/B"] : List String) := by decide

/-- C4 (amended): when the parent-child index holds a non-empty entry for the
resource, `update_resource` assigns exactly that list as the new `parents`
attribute, discarding whatever was there before; with no entry the resource
is returned unchanged. -/
theorem c4_parents_assignment_semantics (pc : ParentChildMapping)
    (r : Resource) :
    (∀ ps, lookupKey pc r.id = some ps → ps ≠ [] →
        lookupKey (ParentChildMapping.update_resource pc r).attrs "parents"
          = some (PyVal.l ps))
    ∧ (lookupKey pc r.id = none → ParentChildMapping.update_resource pc r = r) := by
  constructor
  · intro ps hps hne
    unfold ParentChildMapping.update_resource
    rw [hps]
    have hie : ps.isEmpty = false := by
      cases ps with
      | nil => exact absurd rfl hne
      | cons a as => rfl
    simp [hie, lookupKey_setKey_self]
  · exact parents_update_of_none pc r

/-- C4 witness: the replacement semantics at the concrete index entry. -/
theorem c4_parents_assignment_semantics_witness :
    lookupKey (ParentChildMapping.update_resource pcX4 rX4).attrs "parents"
      = some (PyVal.l ["a/B"]) :=
  (c4_parents_assignment_semantics pcX4 rX4).1 ["a/B"] (by rfl) (by decide)

/-- C5: whenever a successful run ends with a non-empty deferred-work list,
the batch sequence ends with exactly one flush batch: its rows are all
deferred works' rows followed by all deferred attachments' rows, its copied
paths are the concurrent copier's result over the deferred attachments, and
every earlier batch is a regular (non-flush) batch. -/
theorem c5_final_flush_batch (fg : FedoraGraph) (rs : List Resource)
    (fss : List FileSet) (bs : List BatchRec) (fin : FinalState)
    (hrun : outerRun fg rs fss = .ok (bs, fin))
    (hcw : fin.child_works ≠ []) :
    ∃ b, bs.getLast? = some b
      ∧ b.isFlush = true
      ∧ b.rows = fin.child_works.map (Resource.format_row fg.pipe_delimited)
          ++ fin.child_work_filesets.map (FileSet.format_row fg.pipe_delimited)
      ∧ b.paths = copy_files_concurrently fg.copy fin.child_work_filesets
      ∧ ∀ b2 ∈ bs.dropLast, b2.isFlush = false := by
  obtain ⟨regs, n, hshape, hprops⟩ :=
    outerLoop_shape fg (rs.length + 1) 0 [] [] [] rs fss bs fin hrun
  have hE : ¬ fin.child_works.isEmpty = true := by
    intro hh
    exact hcw (by simpa using hh)
  rw [if_neg hE] at hshape
  refine ⟨mkFlush fg n fin.child_works fin.child_work_filesets, ?_, rfl, rfl,
    rfl, ?_⟩
  · rw [hshape]
    exact List.getLast?_concat _
  · intro b2 hb2
    rw [hshape, List.dropLast_concat] at hb2
    exact (hprops b2 hb2).1

/-- C5 witness: the flush-batch characterization on a concrete run with one
deferred work. -/
theorem c5_final_flush_batch_witness :
    ∃ b, ([⟨0, [], [], [], false⟩,
            mkFlush fgX2 1 [wX5] []] : List BatchRec).getLast? = some b
      ∧ b.isFlush = true
      ∧ b.rows = [wX5].map (Resource.format_row fgX2.pipe_delimited)
          ++ ([] : List FileSet).map (FileSet.format_row fgX2.pipe_delimited)
      ∧ b.paths = copy_files_concurrently fgX2.copy []
      ∧ ∀ b2 ∈ ([⟨0, [], [], [], false⟩,
            mkFlush fgX2 1 [wX5] []] : List BatchRec).dropLast,
          b2.isFlush = false :=
  c5_final_flush_batch fgX2 [wX5] [] _ ⟨[], [wX5], []⟩ (by rfl) (by decide)

/-- C6 counterexample: a resource matching no field-mapping entry and having
no permission, embargo or parent-child index entry yields a row holding ONLY
its identifier — no `visibility` key is present at all, refuting "and the
default visibility value open". -/
theorem c6_no_default_visibility :
    Resource.format_row fgX2.pipe_delimited
        (updateIndices fgX2 (Resource.make_resource "h/x/r1" triplesX6 []))
      = [("bulkrax_identifier", "r1")]
    ∧ lookupKey
        (Resource.format_row fgX2.pipe_delimited
          (updateIndices fgX2 (Resource.make_resource "h/x/r1" triplesX6 [])))
        "visibility" = none := by decide

/-- C6 (amended): a resource that matches no field-mapping entry and has no
index entries still yields a row, but it contains exactly its identifier and
nothing else — no default visibility exists; when the indices do assign a
visibility it is `open`, `restricted` or `private` (permissions), `embargo`
(active embargo), the embargo record's configured post-release value
(expired embargo), or the attribute is left as it was. -/
theorem c6_identifier_only_row_and_visibility_range :
    (∀ (fg : FedoraGraph) (id : String) (triples : List Triple) (m : Mapping),
        (∀ t ∈ triples, lookupMapping m t.p = none) →
        lookupKey fg.permissions id = none →
        lookupKey fg.embargos id = none →
        lookupKey fg.parents id = none →
        Resource.format_row fg.pipe_delimited
            (updateIndices fg (Resource.make_resource id triples m))
          = [("bulkrax_identifier", uri_to_id id)])
    ∧ ∀ (pm : PermissionsMapping) (em : EmbargoMapping) (now : String)
        (r : Resource),
        visibilityAfterUpdates pm em now r = lookupKey r.attrs "visibility"
        ∨ visibilityAfterUpdates pm em now r ∈
            [some (PyVal.s "open"), some (PyVal.s "restricted"),
             some (PyVal.s "private"), some (PyVal.s "embargo")]
        ∨ ∃ er, lookupKey em r.id = some er
            ∧ visibilityAfterUpdates pm em now r
                = some (PyVal.s er.visibility_after_embargo) := by
  constructor
  · intro fg id triples m hm hp he hc
    have hattrs : (Resource.make_resource id triples m).attrs = [] :=
      make_resource_foldl_unmatched m triples [] hm
    rw [updateIndices_of_none fg (Resource.make_resource id triples m) hp he hc]
    unfold Resource.format_row
    rw [hattrs]
    rfl
  · intro pm em now r
    exact visibilityAfterUpdates_cases pm em now r

/-- C6 witness: the identifier-only row at a concrete unmatched resource. -/
theorem c6_identifier_only_row_witness :
    Resource.format_row fgX2.pipe_delimited
        (updateIndices fgX2
          (Resource.make_resource "h/x/r2"
            [{ p := "http://pred/three", o := "v" }] []))
      = [("bulkrax_identifier", "r2")] :=
  (c6_identifier_only_row_and_visibility_range).1 fgX2 "h/x/r2"
    [{ p := "http://pred/three", o := "v" }] [] (by decide) rfl rfl rfl

/-- C8: a deferred work is flushed into the final batch unconditionally —
whether or not its declared parent ids were ever emitted anywhere — so a
dangling parent reference raises no error and the work's row (unresolved
reference included) is present in the last batch of a successful run. -/
theorem c8_deferred_work_row_in_final_batch (fg : FedoraGraph)
    (rs : List Resource) (fss : List FileSet) (bs : List BatchRec)
    (fin : FinalState) (w : Resource)
    (hrun : outerRun fg rs fss = .ok (bs, fin))
    (hw : w ∈ fin.child_works) :
    ∃ b, bs.getLast? = some b ∧ b.isFlush = true
      ∧ Resource.format_row fg.pipe_delimited w ∈ b.rows := by
  obtain ⟨regs, n, hshape, _⟩ :=
    outerLoop_shape fg (rs.length + 1) 0 [] [] [] rs fss bs fin hrun
  have hne : fin.child_works ≠ [] := List.ne_nil_of_mem hw
  have hE : ¬ fin.child_works.isEmpty = true := by
    intro hh
    exact hne (by simpa using hh)
  rw [if_neg hE] at hshape
  refine ⟨mkFlush fg n fin.child_works fin.child_work_filesets, ?_, rfl, ?_⟩
  · rw [hshape]
    exact List.getLast?_concat _
  · exact List.mem_append_left _ (List.mem_map_of_mem _ hw)

/-- C8 witness: a concrete run whose only work has the never-emitted parent
`a/missing`; the run succeeds and the work's row sits in the final batch. -/
theorem c8_deferred_work_row_in_final_batch_witness :
    ∃ b, ([⟨0, [], [], [], false⟩,
            mkFlush fgX2 1 [wX5] []] : List BatchRec).getLast? = some b
      ∧ b.isFlush = true
      ∧ Resource.format_row fgX2.pipe_delimited wX5 ∈ b.rows :=
  c8_deferred_work_row_in_final_batch fgX2 [wX5] [] _ ⟨[], [wX5], []⟩ wX5
    (by rfl) (by decide)

/-- C9 counterexample: over byte-identical streams and indices, two runs
whose wall clocks straddle an embargo release date yield different rows for
the same batch index — the clock consulted by `is_active_embargo` is an
input the claim does not fix, so "any two runs over the same static input
data" are not byte-identical. -/
theorem c9_clock_is_hidden_input :
    rowsView (outerRun { fgX9 with now := "2026-10-12T00:00:00" } [wX1] [])
      ≠ rowsView (outerRun { fgX9 with now := "2026-12-31T00:00:00" } [wX1] []) := by
  decide

/-- C9 (amended): runs over the same streams, the same four static
configuration pieces AND the same wall-clock instant produce identical
per-batch-index rows (indeed identical everything except the copied-path
lists), regardless of how the file-copy oracle behaves in either run. -/
theorem c9_rows_deterministic_given_clock (fg1 fg2 : FedoraGraph)
    (rs : List Resource) (fss : List FileSet)
    (hb : fg1.batch_size = fg2.batch_size)
    (hpd : fg1.pipe_delimited = fg2.pipe_delimited)
    (hp : fg1.permissions = fg2.permissions)
    (he : fg1.embargos = fg2.embargos)
    (hpc : fg1.parents = fg2.parents)
    (hn : fg1.now = fg2.now) :
    sansPathsRun (outerRun fg1 rs fss) = sansPathsRun (outerRun fg2 rs fss) := by
  obtain ⟨b1, pd1, p1, e1, pc1, n1, c1⟩ := fg1
  obtain ⟨b2, pd2, p2, e2, pc2, n2, c2⟩ := fg2
  simp only at hb hpd hp he hpc hn
  subst hb; subst hpd; subst hp; subst he; subst hpc; subst hn
  exact outerLoop_copy_irrel b1 pd1 p1 e1 pc1 n1 c1 c2 (rs.length + 1) 0 [] [] []
    rs fss

/-- C9 witness: two runs differing only in the copy oracle agree on
everything but the copied paths. -/
theorem c9_rows_deterministic_given_clock_witness :
    sansPathsRun (outerRun fgX9 [wX1] [])
      = sansPathsRun (outerRun { fgX9 with copy := fun f => some f.file } [wX1] []) :=
  c9_rows_deterministic_given_clock fgX9
    { fgX9 with copy := fun f => some f.file } [wX1] [] rfl rfl rfl rfl rfl rfl

/-- C10: with a positive configured threshold and an empty resource stream,
the assembler still yields exactly one batch — index 0, no rows, no copied
files — whatever the attachment stream holds. -/
theorem c10_empty_stream_single_batch (fg : FedoraGraph) (fss : List FileSet)
    (h : 0 < fg.batch_size) :
    prepare_import_batches fg [] fss = .ok [(0, [], [])] := by
  unfold prepare_import_batches outerRun outerLoop innerLoop
  simp [h, copy_files_concurrently, chunksOf10]

/-- C10 witness: the empty-stream batch at the default configuration. -/
theorem c10_empty_stream_single_batch_witness :
    0 < fgX10.batch_size
      ∧ prepare_import_batches fgX10 [] [] = .ok [(0, [], [])] :=
  ⟨by decide, c10_empty_stream_single_batch fgX10 [] (by decide)⟩
